import Mathlib

/-!
Verification of the interview phase scheduler of the Interview-Simulator
repository.

The repository's client code (`frontend/src/components/interview/running/InterviewPage.tsx`,
`frontend/src/components/interview/setup/Home.jsx`) drives a server-side
scheduler through `POST /api/interview/start`, `GET /api/interview/{id}/status`,
`POST .../pause`, `POST .../resume`.  The server-side engine itself is not part
of the checked-in sources, so the engine below is modelled from the
specification (data model of spec section 3, engine of section 4.2, controller
of section 4.3).  The timeline bar component `TimelineProgress.jsx` is present
in the sources and is embedded directly from that code at the end of the
definitions.
-/

namespace Scheduler

/-- Modelled from the spec: phase status of a `PhaseRecord` (section 3); the
implementation is missing from the sources. -/
inductive PhaseStatus where
  | pending
  | active
  | completed
  | skipped
deriving DecidableEq

/-- Modelled from the spec: an immutable phase description (section 3); the
implementation is missing from the sources. -/
structure Phase where
  name : String
  durationMinutes : Int
  isSkippable : Bool
  isShortenable : Bool
deriving DecidableEq

/-- Modelled from the spec: one mutable record per phase within a session
(section 3); the implementation is missing from the sources. -/
structure PhaseRecord where
  phase : Phase
  status : PhaseStatus
  completedAtOffsetSeconds : Option Int
deriving DecidableEq

instance : Inhabited Phase := ⟨⟨"", 0, false, false⟩⟩

instance : Inhabited PhaseRecord := ⟨⟨default, PhaseStatus.pending, none⟩⟩

/-- Modelled from the spec: the session lifecycle state (section 3). -/
inductive SessionState where
  | running
  | paused
  | completed
deriving DecidableEq

/-- Modelled from the spec: the aggregate session root (section 3); timestamps
are wall-clock seconds. -/
structure InterviewSession where
  phaseRecords : List PhaseRecord
  currentIndex : Nat
  sessionState : SessionState
  startedAt : Int
  pausedAt : Option Int
  accumulatedPausedSeconds : Int
deriving DecidableEq

/-- Modelled from the spec: the error taxonomy of section 7. -/
inductive SchedulerError where
  | invalidSchedule
  | sessionNotFound
  | invalidSessionState
  | phaseNotSkippable
  | phaseNotShortenable
  | sessionAlreadyCompleted
deriving DecidableEq

/-- Modelled from the spec: elapsed live time,
`now - startedAt - accumulatedPausedSeconds - (pausedAt present ? now - pausedAt : 0)`
(section 3 invariant). -/
def elapsedSeconds (s : InterviewSession) (now : Int) : Int :=
  now - s.startedAt - s.accumulatedPausedSeconds -
    (match s.pausedAt with
     | some p => now - p
     | none => 0)

/-- Modelled from the spec: the cumulative end offset (in seconds) that one
phase record contributes to the engine's walk; a skipped phase's remaining
duration is treated as zero going forward, so its range ends at the recorded
skip offset (sections 4.2 and 4.3). -/
def effEnd (cum : Int) (r : PhaseRecord) : Int :=
  if r.status = PhaseStatus.skipped then r.completedAtOffsetSeconds.getD cum
  else cum + r.phase.durationMinutes * 60

/-- Modelled from the spec: walk the records in order, accumulating each
phase's effective duration; return the index and cumulative-before offset of
the phase whose cumulative range contains `t`, or `none` when `t` has consumed
every phase (section 4.2 step 2). -/
def walk : Int → Int → List PhaseRecord → Option (Nat × Int)
  | _, _, [] => none
  | cum, t, r :: rs =>
    if t < effEnd cum r then some (0, cum)
    else (walk (effEnd cum r) t rs).map (fun p => (p.1 + 1, p.2))

/-- Modelled from the spec: the total effective duration in seconds, the sum
the engine measures `isCompleted` against (section 4.2 step 4). -/
def effTotal : Int → List PhaseRecord → Int
  | cum, [] => cum
  | cum, r :: rs => effTotal (effEnd cum r) rs

/-- Modelled from the spec: mark a fully consumed phase `completed`, recording
the offset at which it ended; terminal statuses are left alone
(section 4.2, transition application). -/
def markDone (e : Int) (r : PhaseRecord) : PhaseRecord :=
  if r.status = PhaseStatus.completed ∨ r.status = PhaseStatus.skipped then r
  else { r with status := PhaseStatus.completed, completedAtOffsetSeconds := some e }

/-- Modelled from the spec: advance the records past every phase fully
consumed by elapsed time `t` (section 4.2, transition application). -/
def advanceRecords : Int → Int → List PhaseRecord → List PhaseRecord
  | _, _, [] => []
  | cum, t, r :: rs =>
    if t < effEnd cum r then r :: rs
    else markDone (effEnd cum r) r :: advanceRecords (effEnd cum r) t rs

/-- Modelled from the spec: the lazy transition application run before every
operation: phases whose duration has elapsed are marked completed,
`currentIndex` advances, and the session completes when the walk passes the
end of the list (section 4.2). -/
def applyTransitions (s : InterviewSession) (now : Int) : InterviewSession :=
  if s.sessionState = SessionState.completed then s
  else
    match walk 0 (elapsedSeconds s now) s.phaseRecords with
    | some (i, _) =>
      { s with phaseRecords := advanceRecords 0 (elapsedSeconds s now) s.phaseRecords,
               currentIndex := i }
    | none =>
      { s with phaseRecords := advanceRecords 0 (elapsedSeconds s now) s.phaseRecords,
               currentIndex := s.phaseRecords.length - 1,
               sessionState := SessionState.completed }

/-- Modelled from the spec: the live, derived view returned by `status`
(sections 4.2 and 6). -/
structure LiveState where
  currentPhase : String
  elapsedMinutes : ℚ
  totalMinutes : ℚ
  progressPercentage : ℚ
  isCompleted : Bool
  isSkipped : Bool
deriving DecidableEq

/-- Clamp a rational to the interval `[0, 1]`. -/
def clamp01 (q : ℚ) : ℚ := max 0 (min 1 q)

/-- Modelled from the spec: the pure engine computation
`computeLiveState(session, now) → LiveState` (section 4.2); a completed
session yields the frozen terminal snapshot, independent of `now`
(section 4.3). -/
def computeLiveState (s : InterviewSession) (now : Int) : LiveState :=
  if s.sessionState = SessionState.completed then
    let t := effTotal 0 s.phaseRecords
    let r := s.phaseRecords.getD s.currentIndex default
    { currentPhase := r.phase.name
      elapsedMinutes := (t : ℚ) / 60
      totalMinutes := (t : ℚ) / 60
      progressPercentage := 1
      isCompleted := true
      isSkipped := r.status == PhaseStatus.skipped }
  else
    let e := elapsedSeconds s now
    let t := effTotal 0 s.phaseRecords
    match walk 0 e s.phaseRecords with
    | some (i, c) =>
      let r := s.phaseRecords.getD i default
      { currentPhase := r.phase.name
        elapsedMinutes := (e : ℚ) / 60
        totalMinutes := (t : ℚ) / 60
        progressPercentage := clamp01 (((e : ℚ) - (c : ℚ)) / ((r.phase.durationMinutes : ℚ) * 60))
        isCompleted := false
        isSkipped := r.status == PhaseStatus.skipped }
    | none =>
      let r := s.phaseRecords.getD (s.phaseRecords.length - 1) default
      { currentPhase := r.phase.name
        elapsedMinutes := (e : ℚ) / 60
        totalMinutes := (t : ℚ) / 60
        progressPercentage := 1
        isCompleted := true
        isSkipped := r.status == PhaseStatus.skipped }

/-- Modelled from the spec: a client-submitted phase descriptor, the body of
`POST /api/interview/start` (section 6). -/
structure PhaseInput where
  phase : String
  duration_minutes : Int
  is_skippable : Bool
  is_shortenable : Bool
deriving DecidableEq

/-- Modelled from the spec: the fresh pending record built for one submitted
phase (section 4.1). -/
def toRecord (p : PhaseInput) : PhaseRecord :=
  { phase := { name := p.phase, durationMinutes := p.duration_minutes,
               isSkippable := p.is_skippable, isShortenable := p.is_shortenable },
    status := PhaseStatus.pending,
    completedAtOffsetSeconds := none }

/-- Modelled from the spec: the first phase is active while the session runs
(section 3 invariant). -/
def activateFirst : List PhaseRecord → List PhaseRecord
  | [] => []
  | r :: rs => { r with status := PhaseStatus.active } :: rs

/-- Modelled from the spec: the Schedule Builder behind `start` — validates
the submitted list (`InvalidSchedule` on an empty list, a non-positive
duration, or an empty name) and otherwise creates a running session with
`startedAt = now`, returning it with the total duration in minutes
(sections 4.1 and 4.3). -/
def startOp (inputs : List PhaseInput) (now : Int) :
    Except SchedulerError (InterviewSession × Int) :=
  if inputs.isEmpty then Except.error SchedulerError.invalidSchedule
  else if inputs.any (fun p => decide (p.duration_minutes ≤ 0)) then
    Except.error SchedulerError.invalidSchedule
  else if inputs.any (fun p => p.phase == "") then
    Except.error SchedulerError.invalidSchedule
  else
    Except.ok
      ({ phaseRecords := activateFirst (inputs.map toRecord),
         currentIndex := 0,
         sessionState := SessionState.running,
         startedAt := now,
         pausedAt := none,
         accumulatedPausedSeconds := 0 },
       (inputs.map (fun p => p.duration_minutes)).sum)

/-- Modelled from the spec: `status` applies the lazy transitions and returns
the stored session together with the derived live state (section 4.3). -/
def statusOp (s : InterviewSession) (now : Int) :
    Except SchedulerError (InterviewSession × LiveState) :=
  let s1 := applyTransitions s now
  Except.ok (s1, computeLiveState s1 now)

/-- Modelled from the spec: `pause` requires a running session and records
`pausedAt = now` (section 4.3). -/
def pauseOp (s : InterviewSession) (now : Int) :
    Except SchedulerError InterviewSession :=
  let s1 := applyTransitions s now
  if s1.sessionState = SessionState.running then
    Except.ok { s1 with pausedAt := some now, sessionState := SessionState.paused }
  else Except.error SchedulerError.invalidSessionState

/-- Modelled from the spec: `resume` requires a paused session, adds
`now - pausedAt` to `accumulatedPausedSeconds` and clears `pausedAt`
(section 4.3). -/
def resumeOp (s : InterviewSession) (now : Int) :
    Except SchedulerError InterviewSession :=
  let s1 := applyTransitions s now
  if s1.sessionState = SessionState.paused then
    match s1.pausedAt with
    | some p =>
      Except.ok { s1 with pausedAt := none,
                          sessionState := SessionState.running,
                          accumulatedPausedSeconds := s1.accumulatedPausedSeconds + (now - p) }
    | none => Except.error SchedulerError.invalidSessionState
  else Except.error SchedulerError.invalidSessionState

/-- Modelled from the spec: the successful part of `skip` on an
already-advanced session — mark the current phase skipped at the current
elapsed offset and re-run the engine's advance logic (section 4.3). -/
def skipApply (s1 : InterviewSession) (now : Int) : InterviewSession :=
  applyTransitions
    { s1 with
      phaseRecords := s1.phaseRecords.set s1.currentIndex
        { s1.phaseRecords.getD s1.currentIndex default with
          status := PhaseStatus.skipped,
          completedAtOffsetSeconds := some (elapsedSeconds s1 now) } }
    now

/-- Modelled from the spec: `skip` requires a non-completed session whose
current phase (after lazy transitions) is skippable; it marks that phase
skipped at the current elapsed offset and re-runs the engine's advance logic
(section 4.3). -/
def skipOp (s : InterviewSession) (now : Int) :
    Except SchedulerError InterviewSession :=
  if (applyTransitions s now).sessionState = SessionState.completed then
    Except.error SchedulerError.sessionAlreadyCompleted
  else if ((applyTransitions s now).phaseRecords.getD
      (applyTransitions s now).currentIndex default).phase.isSkippable then
    Except.ok (skipApply (applyTransitions s now) now)
  else Except.error SchedulerError.phaseNotSkippable

/-- An operation a client can issue against a stored session, tagged with the
wall-clock instant at which it is handled. -/
inductive Op where
  | pause (now : Int)
  | resume (now : Int)
  | skip (now : Int)
  | status (now : Int)
deriving DecidableEq

/-- Result of one controller round trip on the stored session: a failed
operation writes nothing back (all-or-nothing, spec section 7). -/
def applyOp (s : InterviewSession) : Op → InterviewSession
  | Op.pause t =>
    match pauseOp s t with
    | Except.ok s' => s'
    | Except.error _ => s
  | Op.resume t =>
    match resumeOp s t with
    | Except.ok s' => s'
    | Except.error _ => s
  | Op.skip t =>
    match skipOp s t with
    | Except.ok s' => s'
    | Except.error _ => s
  | Op.status t =>
    match statusOp s t with
    | Except.ok p => p.1
    | Except.error _ => s

/-- Stored session after a sequence of controller round trips. -/
def applyOps (s : InterviewSession) (ops : List Op) : InterviewSession :=
  ops.foldl applyOp s

/-- Cumulative planned duration, in seconds, of the records before index `i`. -/
def cumBefore (recs : List PhaseRecord) (i : Nat) : Int :=
  ((recs.take i).map (fun r => r.phase.durationMinutes * 60)).sum

/-- Run a finite sequence of pause/resume cycles against a stored session;
each pair holds the wall-clock instants of the pause and its matching resume. -/
def runCycles : InterviewSession → List (Int × Int) → Except SchedulerError InterviewSession
  | s, [] => Except.ok s
  | s, c :: cs =>
    match pauseOp s c.1 with
    | Except.ok s1 =>
      match resumeOp s1 c.2 with
      | Except.ok s2 => runCycles s2 cs
      | Except.error e => Except.error e
    | Except.error e => Except.error e

/-! Basic preservation lemmas about the lazy transition application. -/

theorem applyTransitions_startedAt (s : InterviewSession) (now : Int) :
    (applyTransitions s now).startedAt = s.startedAt := by
  unfold applyTransitions
  split
  · rfl
  · split <;> rfl

theorem applyTransitions_pausedAt (s : InterviewSession) (now : Int) :
    (applyTransitions s now).pausedAt = s.pausedAt := by
  unfold applyTransitions
  split
  · rfl
  · split <;> rfl

theorem applyTransitions_accumulated (s : InterviewSession) (now : Int) :
    (applyTransitions s now).accumulatedPausedSeconds = s.accumulatedPausedSeconds := by
  unfold applyTransitions
  split
  · rfl
  · split <;> rfl

theorem elapsedSeconds_applyTransitions (s : InterviewSession) (now t : Int) :
    elapsedSeconds (applyTransitions s now) t = elapsedSeconds s t := by
  unfold elapsedSeconds
  rw [applyTransitions_startedAt, applyTransitions_pausedAt, applyTransitions_accumulated]

theorem applyTransitions_state (s : InterviewSession) (now : Int) :
    (applyTransitions s now).sessionState = s.sessionState ∨
    (applyTransitions s now).sessionState = SessionState.completed := by
  unfold applyTransitions
  split
  · left; rfl
  · split
    · left; rfl
    · right; rfl

/-- Claim C2: the elapsed live time equals
`now - startedAt - accumulatedPausedSeconds - (pausedAt present ? now - pausedAt : 0)`;
between two instants with no intervening operation it is non-decreasing while
the session is running and frozen while it is paused. -/
theorem claim2_elapsed_formula_monotone (s : InterviewSession)
    (hwf : s.pausedAt.isSome ↔ s.sessionState = SessionState.paused)
    (now1 now2 : Int) (h12 : now1 ≤ now2) :
    (elapsedSeconds s now1 =
      now1 - s.startedAt - s.accumulatedPausedSeconds -
        (match s.pausedAt with
         | some p => now1 - p
         | none => 0)) ∧
    (s.sessionState = SessionState.running →
      elapsedSeconds s now1 ≤ elapsedSeconds s now2) ∧
    (s.sessionState = SessionState.paused →
      elapsedSeconds s now1 = elapsedSeconds s now2) := by
  refine ⟨rfl, ?_, ?_⟩
  · intro hr
    have hnone : s.pausedAt = none := by
      cases hp : s.pausedAt with
      | none => rfl
      | some p =>
        have : s.sessionState = SessionState.paused := hwf.mp (by simp [hp])
        rw [hr] at this
        exact absurd this (by simp)
    simp only [elapsedSeconds, hnone]
    omega
  · intro hp
    obtain ⟨p, hsome⟩ := Option.isSome_iff_exists.mp (hwf.mpr hp)
    simp only [elapsedSeconds, hsome]
    omega

/-- Concrete witness for claim C2. -/
theorem claim2_witness :
    elapsedSeconds ⟨[], 0, SessionState.running, 0, none, 0⟩ 5 ≤
      elapsedSeconds ⟨[], 0, SessionState.running, 0, none, 0⟩ 9 ∧
    elapsedSeconds ⟨[], 0, SessionState.paused, 0, some 2, 0⟩ 5 =
      elapsedSeconds ⟨[], 0, SessionState.paused, 0, some 2, 0⟩ 9 := by
  constructor
  · exact (claim2_elapsed_formula_monotone ⟨[], 0, SessionState.running, 0, none, 0⟩
      (by simp) 5 9 (by omega)).2.1 rfl
  · exact (claim2_elapsed_formula_monotone ⟨[], 0, SessionState.paused, 0, some 2, 0⟩
      (by simp) 5 9 (by omega)).2.2 rfl

/-! Characterization of successful pause and resume. -/

theorem pauseOp_ok_fields {s s1 : InterviewSession} {now : Int}
    (h : pauseOp s now = Except.ok s1) :
    s1.accumulatedPausedSeconds = s.accumulatedPausedSeconds ∧
    s1.pausedAt = some now ∧
    s1.sessionState = SessionState.paused := by
  simp only [pauseOp] at h
  split at h
  · cases h
    exact ⟨applyTransitions_accumulated s now, rfl, rfl⟩
  · cases h

theorem resumeOp_ok_fields {s s2 : InterviewSession} {now : Int}
    (h : resumeOp s now = Except.ok s2) :
    ∃ p, s.pausedAt = some p ∧
      s2.accumulatedPausedSeconds = s.accumulatedPausedSeconds + (now - p) ∧
      s2.pausedAt = none ∧
      s2.sessionState = SessionState.running := by
  simp only [resumeOp] at h
  split at h
  · split at h
    · rename_i p hp
      cases h
      refine ⟨p, ?_, ?_, rfl, rfl⟩
      · rw [← applyTransitions_pausedAt s now]; exact hp
      · rw [applyTransitions_accumulated s now]
    · cases h
  · cases h

/-- Record list of the one-phase 10-minute session used in the pause/resume
scenario of claim C3. -/
def c3Records : List PhaseRecord :=
  [⟨⟨"Intro", 10, false, true⟩, PhaseStatus.active, none⟩]

/-- Session created by `start` in the claim C3 scenario. -/
def c3sStart : InterviewSession := ⟨c3Records, 0, SessionState.running, 0, none, 0⟩

/-- Session after the pause at wall-clock 120 in the claim C3 scenario. -/
def c3sPaused : InterviewSession := ⟨c3Records, 0, SessionState.paused, 0, some 120, 0⟩

/-- Session after the resume at wall-clock 300 in the claim C3 scenario. -/
def c3sResumed : InterviewSession := ⟨c3Records, 0, SessionState.running, 0, none, 180⟩

/-- Live state reported at wall-clock 360 in the claim C3 scenario. -/
def c3Live : LiveState :=
  { currentPhase := "Intro"
    elapsedMinutes := (((180 : Int) : ℚ)) / 60
    totalMinutes := (((600 : Int) : ℚ)) / 60
    progressPercentage := clamp01 ((((180 : Int) : ℚ) - ((0 : Int) : ℚ)) / (((10 : Int) : ℚ) * 60))
    isCompleted := false
    isSkipped := false }

/-- Claim C3: each successful resume adds `now - pausedAt` to
`accumulatedPausedSeconds` and clears `pausedAt`, so that after a finite
sequence of pause/resume cycles `accumulatedPausedSeconds` equals the sum of
the wall-clock gaps between each pause and its matching resume; in the
concrete scenario, a pause at elapsed 2 minutes followed by a resume 3 real
minutes later makes a status call one minute after the resume report
`elapsed_minutes = 3`. -/
theorem claim3_pause_resume_accounting :
    (∀ (s s' : InterviewSession) (now : Int), resumeOp s now = Except.ok s' →
       ∃ p, s.pausedAt = some p ∧
         s'.accumulatedPausedSeconds = s.accumulatedPausedSeconds + (now - p) ∧
         s'.pausedAt = none) ∧
    (∀ (s s' : InterviewSession) (cycles : List (Int × Int)),
       runCycles s cycles = Except.ok s' →
       s'.accumulatedPausedSeconds =
         s.accumulatedPausedSeconds + (cycles.map (fun c => c.2 - c.1)).sum) ∧
    (startOp [⟨"Intro", 10, false, true⟩] 0 = Except.ok (c3sStart, 10) ∧
     pauseOp c3sStart 120 = Except.ok c3sPaused ∧
     resumeOp c3sPaused 300 = Except.ok c3sResumed ∧
     statusOp c3sResumed 360 = Except.ok (c3sResumed, c3Live) ∧
     c3Live.elapsedMinutes = 3) := by
  refine ⟨?_, ?_, rfl, rfl, rfl, rfl, ?_⟩
  · intro s s' now h
    obtain ⟨p, hp, hacc, hnone, _⟩ := resumeOp_ok_fields h
    exact ⟨p, hp, hacc, hnone⟩
  · intro s s' cycles
    induction cycles generalizing s with
    | nil =>
      intro h
      cases h
      simp
    | cons c cs ih =>
      intro h
      unfold runCycles at h
      split at h
      · rename_i s1 hpause
        split at h
        · rename_i s2 hresume
          have h1 := pauseOp_ok_fields hpause
          obtain ⟨p, hp, hacc, _, _⟩ := resumeOp_ok_fields hresume
          have hps : p = c.1 := by
            rw [h1.2.1] at hp
            cases hp
            rfl
          have := ih s2 h
          rw [this, hacc, h1.1, hps]
          simp [List.sum_cons]
          ring
        · cases h
      · cases h
  · show (((180 : Int) : ℚ)) / 60 = 3
    norm_num

/-- Concrete witness for claim C3: two pause/resume cycles accumulate the sum
of their wall-clock gaps. -/
theorem claim3_witness :
    (⟨c3Records, 0, SessionState.running, 0, none, 90⟩ : InterviewSession).accumulatedPausedSeconds =
      c3sStart.accumulatedPausedSeconds +
        (([((10 : Int), (40 : Int)), (100, 160)]).map (fun c => c.2 - c.1)).sum :=
  claim3_pause_resume_accounting.2.1 c3sStart _ [(10, 40), (100, 160)] rfl

/-- Lazy transitions never leave a non-paused session paused. -/
theorem applyTransitions_not_paused {s : InterviewSession}
    (h : s.sessionState ≠ SessionState.paused) (now : Int) :
    (applyTransitions s now).sessionState ≠ SessionState.paused := by
  rcases applyTransitions_state s now with h1 | h1 <;> rw [h1]
  · exact h
  · simp

/-- Claim C5: an operation that fails leaves the stored session exactly as it
was: `resume` on a running session fails with `InvalidSessionState` and writes
nothing, and `skip` on a non-skippable current phase fails with
`PhaseNotSkippable` and writes nothing. -/
theorem claim5_errors_all_or_nothing :
    (∀ (s : InterviewSession) (now : Int), s.sessionState = SessionState.running →
       resumeOp s now = Except.error SchedulerError.invalidSessionState ∧
       applyOp s (Op.resume now) = s) ∧
    (∀ (s : InterviewSession) (now : Int),
       (applyTransitions s now).sessionState ≠ SessionState.completed →
       ((applyTransitions s now).phaseRecords.getD
           (applyTransitions s now).currentIndex default).phase.isSkippable = false →
       skipOp s now = Except.error SchedulerError.phaseNotSkippable ∧
       applyOp s (Op.skip now) = s) := by
  constructor
  · intro s now hrun
    have hnp : (applyTransitions s now).sessionState ≠ SessionState.paused :=
      applyTransitions_not_paused (by rw [hrun]; simp) now
    have herr : resumeOp s now = Except.error SchedulerError.invalidSessionState := by
      simp only [resumeOp]
      rw [if_neg hnp]
    refine ⟨herr, ?_⟩
    simp only [applyOp, herr]
  · intro s now hnc hns
    have herr : skipOp s now = Except.error SchedulerError.phaseNotSkippable := by
      simp only [skipOp]
      rw [if_neg hnc, if_neg (by simp only [hns]; simp)]
    refine ⟨herr, ?_⟩
    simp only [applyOp, herr]

/-- Concrete witness for claim C5: resuming a running session and skipping a
non-skippable phase both fail and leave the stored session unchanged. -/
theorem claim5_witness :
    resumeOp c3sStart 5 = Except.error SchedulerError.invalidSessionState ∧
    applyOp c3sStart (Op.resume 5) = c3sStart ∧
    skipOp c3sStart 5 = Except.error SchedulerError.phaseNotSkippable ∧
    applyOp c3sStart (Op.skip 5) = c3sStart := by
  have h1 := claim5_errors_all_or_nothing.1 c3sStart 5 rfl
  have h2 := claim5_errors_all_or_nothing.2 c3sStart 5 (by decide) (by decide)
  exact ⟨h1.1, h1.2, h2.1, h2.2⟩

/-- Claim C8: on a completed session, `status` always succeeds, returns the
same frozen terminal snapshot at every later instant, and does not modify the
stored session. -/
theorem claim8_completed_status_idempotent (s : InterviewSession)
    (h : s.sessionState = SessionState.completed) (now1 now2 : Int) :
    statusOp s now1 = Except.ok (s, computeLiveState s now1) ∧
    statusOp s now1 = statusOp s now2 ∧
    applyOp s (Op.status now1) = s := by
  have hA : ∀ t : Int, applyTransitions s t = s := by
    intro t
    unfold applyTransitions
    rw [if_pos h]
  have hL : ∀ t t' : Int, computeLiveState s t = computeLiveState s t' := by
    intro t t'
    unfold computeLiveState
    rw [if_pos h, if_pos h]
  refine ⟨?_, ?_, ?_⟩
  · simp only [statusOp, hA]
  · simp only [statusOp, hA]
    rw [hL now1 now2]
  · simp only [applyOp, statusOp, hA]

/-- Concrete witness for claim C8. -/
theorem claim8_witness :
    statusOp ⟨[⟨⟨"Intro", 1, false, false⟩, PhaseStatus.completed, some 60⟩], 0,
        SessionState.completed, 0, none, 0⟩ 100 =
      statusOp ⟨[⟨⟨"Intro", 1, false, false⟩, PhaseStatus.completed, some 60⟩], 0,
        SessionState.completed, 0, none, 0⟩ 500 :=
  (claim8_completed_status_idempotent
    ⟨[⟨⟨"Intro", 1, false, false⟩, PhaseStatus.completed, some 60⟩], 0,
      SessionState.completed, 0, none, 0⟩ rfl 100 500).2.1

/-- Claim C6: `start` fails with `InvalidSchedule` exactly when the submitted
list is empty, some duration is not a positive integer, or some name is the
empty string; otherwise it creates a running session with `startedAt = now`. -/
theorem claim6_start_validation (inputs : List PhaseInput) (now : Int) :
    (startOp inputs now = Except.error SchedulerError.invalidSchedule ↔
      (inputs = [] ∨ ∃ p ∈ inputs, p.duration_minutes ≤ 0 ∨ p.phase = "")) ∧
    (¬(inputs = [] ∨ ∃ p ∈ inputs, p.duration_minutes ≤ 0 ∨ p.phase = "") →
      ∃ s tot, startOp inputs now = Except.ok (s, tot) ∧
        s.sessionState = SessionState.running ∧ s.startedAt = now) := by
  have hiff : startOp inputs now = Except.error SchedulerError.invalidSchedule ↔
      (inputs = [] ∨ ∃ p ∈ inputs, p.duration_minutes ≤ 0 ∨ p.phase = "") := by
    unfold startOp
    split_ifs with h1 h2 h3
    · simp only [List.isEmpty_iff] at h1
      simp [h1]
    · simp only [List.any_eq_true, decide_eq_true_iff] at h2
      constructor
      · intro _
        right
        obtain ⟨p, hp, hd⟩ := h2
        exact ⟨p, hp, Or.inl hd⟩
      · intro _
        rfl
    · simp only [List.any_eq_true, beq_iff_eq] at h3
      constructor
      · intro _
        right
        obtain ⟨p, hp, hn⟩ := h3
        exact ⟨p, hp, Or.inr hn⟩
      · intro _
        rfl
    · simp only [List.isEmpty_iff] at h1
      simp only [List.any_eq_true, decide_eq_true_iff] at h2
      simp only [List.any_eq_true, beq_iff_eq] at h3
      constructor
      · intro h
        cases h
      · intro h
        rcases h with h | ⟨p, hp, hd | hn⟩
        · exact absurd h h1
        · exact absurd ⟨p, hp, hd⟩ h2
        · exact absurd ⟨p, hp, hn⟩ h3
  refine ⟨hiff, ?_⟩
  intro hok
  cases hstart : startOp inputs now with
  | error e =>
    exfalso
    have : e = SchedulerError.invalidSchedule := by
      unfold startOp at hstart
      split_ifs at hstart <;> cases hstart <;> rfl
    rw [this] at hstart
    exact hok (hiff.mp hstart)
  | ok p =>
    refine ⟨p.1, p.2, rfl, ?_, ?_⟩
    all_goals
      unfold startOp at hstart
      split_ifs at hstart
      cases hstart
      rfl

/-- Concrete witness for claim C6: an empty name is rejected, a valid list is
accepted running with the requested start time. -/
theorem claim6_witness :
    startOp [⟨"", 5, false, false⟩] 7 = Except.error SchedulerError.invalidSchedule ∧
    ∃ s tot, startOp [⟨"Intro", 5, false, false⟩] 7 = Except.ok (s, tot) ∧
      s.sessionState = SessionState.running ∧ s.startedAt = 7 := by
  constructor
  · exact (claim6_start_validation [⟨"", 5, false, false⟩] 7).1.mpr
      (Or.inr ⟨⟨"", 5, false, false⟩, by simp, Or.inr rfl⟩)
  · exact (claim6_start_validation [⟨"Intro", 5, false, false⟩] 7).2 (by simp)

/-! Lemmas relating the walk, the effective total, and freshly built records. -/

theorem effEnd_noskip {r : PhaseRecord} (h : r.status ≠ PhaseStatus.skipped) (cum : Int) :
    effEnd cum r = cum + r.phase.durationMinutes * 60 := by
  unfold effEnd
  rw [if_neg h]

theorem effTotal_eq_sum (recs : List PhaseRecord) :
    ∀ cum : Int, (∀ x ∈ recs, x.status ≠ PhaseStatus.skipped) →
    effTotal cum recs = cum + ((recs.map (fun r => r.phase.durationMinutes * 60)).sum) := by
  induction recs with
  | nil =>
    intro cum _
    simp [effTotal]
  | cons r rs ih =>
    intro cum hns
    have he := effEnd_noskip (hns r (by simp)) cum
    have := ih (effEnd cum r) (fun x hx => hns x (by simp [hx]))
    show effTotal (effEnd cum r) rs = _
    rw [this, he]
    simp [List.sum_cons]
    ring

theorem effTotal_ge (recs : List PhaseRecord) :
    ∀ cum : Int, (∀ x ∈ recs, x.status ≠ PhaseStatus.skipped) →
    (∀ x ∈ recs, 0 ≤ x.phase.durationMinutes) →
    cum ≤ effTotal cum recs := by
  induction recs with
  | nil =>
    intro cum _ _
    simp [effTotal]
  | cons r rs ih =>
    intro cum hns hd
    have he := effEnd_noskip (hns r (by simp)) cum
    have h1 : cum ≤ effEnd cum r := by
      rw [he]
      have hd0 := hd r (by simp)
      nlinarith
    have h2 := ih (effEnd cum r) (fun x hx => hns x (by simp [hx]))
      (fun x hx => hd x (by simp [hx]))
    calc cum ≤ effEnd cum r := h1
    _ ≤ effTotal (effEnd cum r) rs := h2
    _ = effTotal cum (r :: rs) := rfl

theorem walk_none_iff_cons (rs : List PhaseRecord) :
    ∀ (r : PhaseRecord) (cum t : Int),
    (∀ x ∈ r :: rs, x.status ≠ PhaseStatus.skipped) →
    (∀ x ∈ r :: rs, 0 ≤ x.phase.durationMinutes) →
    (walk cum t (r :: rs) = none ↔ effTotal cum (r :: rs) ≤ t) := by
  induction rs with
  | nil =>
    intro r cum t hns hd
    have he := effEnd_noskip (hns r (by simp)) cum
    show (if t < effEnd cum r then some (0, cum)
          else (walk (effEnd cum r) t []).map (fun p => (p.1 + 1, p.2))) = none ↔
         effTotal (effEnd cum r) [] ≤ t
    by_cases hlt : t < effEnd cum r
    · rw [if_pos hlt]
      simp only [effTotal]
      constructor
      · intro h
        cases h
      · intro h
        omega
    · rw [if_neg hlt]
      simp only [walk, Option.map_none', effTotal]
      constructor
      · intro _
        omega
      · intro _
        trivial
  | cons r' rs' ih =>
    intro r cum t hns hd
    show (if t < effEnd cum r then some (0, cum)
          else (walk (effEnd cum r) t (r' :: rs')).map (fun p => (p.1 + 1, p.2))) = none ↔
         effTotal (effEnd cum r) (r' :: rs') ≤ t
    by_cases hlt : t < effEnd cum r
    · rw [if_pos hlt]
      constructor
      · intro h
        cases h
      · intro h
        exfalso
        have := effTotal_ge (r' :: rs') (effEnd cum r)
          (fun x hx => hns x (by simp [List.mem_cons] at hx ⊢; tauto))
          (fun x hx => hd x (by simp [List.mem_cons] at hx ⊢; tauto))
        omega
    · rw [if_neg hlt]
      rw [Option.map_eq_none']
      exact ih r' (effEnd cum r) t
        (fun x hx => hns x (by simp [List.mem_cons] at hx ⊢; tauto))
        (fun x hx => hd x (by simp [List.mem_cons] at hx ⊢; tauto))

theorem fresh_recs_noskip (inputs : List PhaseInput) :
    ∀ r ∈ activateFirst (inputs.map toRecord), r.status ≠ PhaseStatus.skipped := by
  cases inputs with
  | nil =>
    intro r hr
    simp [activateFirst] at hr
  | cons a as =>
    intro r hr
    simp only [List.map_cons, activateFirst, List.mem_cons] at hr
    rcases hr with h | h
    · subst h
      simp [toRecord]
    · obtain ⟨p, _, hpr⟩ := List.mem_map.mp h
      subst hpr
      simp [toRecord]

theorem fresh_recs_durations (inputs : List PhaseInput) :
    (activateFirst (inputs.map toRecord)).map (fun r => r.phase.durationMinutes) =
      inputs.map (fun p => p.duration_minutes) := by
  cases inputs with
  | nil => rfl
  | cons a as =>
    simp only [List.map_cons, activateFirst]
    congr 1
    rw [List.map_map]
    rfl

/-- Claim C7: the total duration returned by `start` is the sum of the
submitted `duration_minutes`, and the engine decides `is_completed` against
exactly that sum (converted to seconds). -/
theorem claim7_total_roundtrip (inputs : List PhaseInput) (now : Int)
    (s : InterviewSession) (tot : Int)
    (h : startOp inputs now = Except.ok (s, tot)) :
    tot = (inputs.map (fun p => p.duration_minutes)).sum ∧
    ∀ t : Int, ((computeLiveState s t).isCompleted = true ↔
      tot * 60 ≤ elapsedSeconds s t) := by
  unfold startOp at h
  split_ifs at h with h1 h2 h3
  have h' := Except.ok.inj h
  have hs : s = { phaseRecords := activateFirst (inputs.map toRecord),
                  currentIndex := 0,
                  sessionState := SessionState.running,
                  startedAt := now,
                  pausedAt := none,
                  accumulatedPausedSeconds := 0 } := (congrArg Prod.fst h').symm
  have ht : tot = (inputs.map (fun p => p.duration_minutes)).sum :=
    (congrArg Prod.snd h').symm
  refine ⟨ht, ?_⟩
  intro t
  simp only [List.any_eq_true, decide_eq_true_iff] at h2
  push_neg at h2
  have hdur : ∀ x ∈ activateFirst (inputs.map toRecord), 0 ≤ x.phase.durationMinutes := by
    intro x hx
    have hmem : x.phase.durationMinutes ∈
        (activateFirst (inputs.map toRecord)).map (fun r => r.phase.durationMinutes) :=
      List.mem_map_of_mem _ hx
    rw [fresh_recs_durations] at hmem
    obtain ⟨p, hp, he⟩ := List.mem_map.mp hmem
    have := h2 p hp
    omega
  have htotal : effTotal 0 (activateFirst (inputs.map toRecord)) =
      ((inputs.map (fun p => p.duration_minutes)).sum) * 60 := by
    rw [effTotal_eq_sum _ 0 (fresh_recs_noskip inputs)]
    rw [List.sum_map_mul_right (activateFirst (inputs.map toRecord))
      (fun r => r.phase.durationMinutes) 60]
    rw [fresh_recs_durations]
    ring
  have hwalk_iff : walk 0 (elapsedSeconds s t) (activateFirst (inputs.map toRecord)) = none ↔
      effTotal 0 (activateFirst (inputs.map toRecord)) ≤ elapsedSeconds s t := by
    cases hinp : inputs with
    | nil =>
      subst hinp
      simp at h1
    | cons a as =>
      subst hinp
      exact walk_none_iff_cons (as.map toRecord)
        { toRecord a with status := PhaseStatus.active } 0 (elapsedSeconds s t)
        (fresh_recs_noskip (a :: as)) hdur
  have hstate : s.sessionState ≠ SessionState.completed := by
    rw [hs]
    simp
  have hrecs : s.phaseRecords = activateFirst (inputs.map toRecord) := by rw [hs]
  simp only [computeLiveState]
  rw [if_neg hstate, hrecs]
  split
  · rename_i i c hw
    constructor
    · intro hfalse
      cases hfalse
    · intro hle
      exfalso
      have hnone : walk 0 (elapsedSeconds s t) (activateFirst (inputs.map toRecord)) = none := by
        rw [hwalk_iff, htotal, ← ht]
        exact hle
      rw [hnone] at hw
      cases hw
  · rename_i hw
    constructor
    · intro _
      rw [ht, ← htotal]
      exact hwalk_iff.mp hw
    · intro _
      rfl

/-- Concrete witness for claim C7. -/
theorem claim7_witness :
    (10 : Int) = (([⟨"Intro", 10, false, true⟩] : List PhaseInput).map
      (fun p => p.duration_minutes)).sum ∧
    ((computeLiveState c3sStart 700).isCompleted = true ↔
      (10 : Int) * 60 ≤ elapsedSeconds c3sStart 700) := by
  have h := claim7_total_roundtrip [⟨"Intro", 10, false, true⟩] 0 c3sStart 10 rfl
  exact ⟨h.1, h.2 700⟩

/-! Lemmas about skipping: the advance logic keeps skipped statuses, and the
walk strictly passes a phase whose range has been closed at the current
elapsed offset. -/

theorem markDone_of_skipped {r : PhaseRecord} (h : r.status = PhaseStatus.skipped)
    (e : Int) : markDone e r = r := by
  unfold markDone
  rw [if_pos (Or.inr h)]

theorem effEnd_markDone (e cum : Int) (r : PhaseRecord) :
    effEnd cum (markDone e r) = effEnd cum r := by
  unfold markDone
  split
  · rfl
  · rename_i hterm
    push_neg at hterm
    unfold effEnd
    rw [if_neg hterm.2]
    simp

theorem advanceRecords_preserves_skipped (recs : List PhaseRecord) :
    ∀ (cum t : Int) (j : Nat),
    (recs.getD j default).status = PhaseStatus.skipped →
    ((advanceRecords cum t recs).getD j default).status = PhaseStatus.skipped := by
  induction recs with
  | nil =>
    intro cum t j h
    exact h
  | cons r rs ih =>
    intro cum t j h
    unfold advanceRecords
    split
    · exact h
    · cases j with
      | zero =>
        rw [List.getD_cons_zero] at h ⊢
        rw [markDone_of_skipped h]
        exact h
      | succ j' =>
        rw [List.getD_cons_succ] at h ⊢
        exact ih _ _ _ h

theorem applyTransitions_preserves_skipped (s : InterviewSession) (now : Int)
    (j : Nat) (h : (s.phaseRecords.getD j default).status = PhaseStatus.skipped) :
    (((applyTransitions s now).phaseRecords.getD j default).status = PhaseStatus.skipped) := by
  unfold applyTransitions
  split
  · exact h
  · split
    · exact advanceRecords_preserves_skipped _ _ _ _ h
    · exact advanceRecords_preserves_skipped _ _ _ _ h

theorem set_preserves_skipped (recs : List PhaseRecord) :
    ∀ (k j : Nat) (r' : PhaseRecord),
    r'.status = PhaseStatus.skipped →
    (recs.getD j default).status = PhaseStatus.skipped →
    (((recs.set k r').getD j default).status = PhaseStatus.skipped) := by
  induction recs with
  | nil =>
    intro k j r' _ h
    exact h
  | cons r rs ih =>
    intro k j r' hr' h
    cases k with
    | zero =>
      cases j with
      | zero =>
        rw [List.set_cons_zero, List.getD_cons_zero]
        exact hr'
      | succ j' =>
        rw [List.set_cons_zero, List.getD_cons_succ]
        rw [List.getD_cons_succ] at h
        exact h
    | succ k' =>
      cases j with
      | zero =>
        rw [List.set_cons_succ, List.getD_cons_zero]
        rw [List.getD_cons_zero] at h
        exact h
      | succ j' =>
        rw [List.set_cons_succ, List.getD_cons_succ]
        rw [List.getD_cons_succ] at h
        exact ih _ _ _ hr' h

theorem set_getD_self (recs : List PhaseRecord) :
    ∀ (k : Nat) (r' : PhaseRecord), k < recs.length →
    ((recs.set k r').getD k default) = r' := by
  induction recs with
  | nil =>
    intro k r' hk
    simp at hk
  | cons r rs ih =>
    intro k r' hk
    cases k with
    | zero =>
      rw [List.set_cons_zero, List.getD_cons_zero]
    | succ k' =>
      rw [List.set_cons_succ, List.getD_cons_succ]
      exact ih _ _ (by simpa using hk)

theorem walk_index_lt_length (recs : List PhaseRecord) :
    ∀ (cum t : Int) (i : Nat) (c : Int),
    walk cum t recs = some (i, c) → i < recs.length := by
  induction recs with
  | nil =>
    intro cum t i c h
    cases h
  | cons r rs ih =>
    intro cum t i c h
    unfold walk at h
    split at h
    · cases h
      simp
    · obtain ⟨⟨j, c'⟩, hw, hfc⟩ := Option.map_eq_some'.mp h
      cases hfc
      have := ih _ _ _ _ hw
      simpa using Nat.succ_lt_succ this

theorem walk_advanceRecords (recs : List PhaseRecord) :
    ∀ (cum t : Int), walk cum t (advanceRecords cum t recs) = walk cum t recs := by
  induction recs with
  | nil =>
    intro cum t
    rfl
  | cons r rs ih =>
    intro cum t
    unfold advanceRecords
    split
    · rfl
    · rename_i hge
      show walk cum t (markDone (effEnd cum r) r :: advanceRecords (effEnd cum r) t rs) = _
      unfold walk
      rw [effEnd_markDone]
      rw [if_neg hge, if_neg hge]
      rw [ih]

theorem walk_set_skip (recs : List PhaseRecord) :
    ∀ (cum t : Int) (i : Nat) (c : Int) (r' : PhaseRecord),
    walk cum t recs = some (i, c) →
    effEnd c r' ≤ t →
    (walk cum t (recs.set i r') = none ∨
     ∃ i' c', walk cum t (recs.set i r') = some (i', c') ∧ i < i') := by
  induction recs with
  | nil =>
    intro cum t i c r' h _
    cases h
  | cons r rs ih =>
    intro cum t i c r' h hle
    unfold walk at h
    split at h
    · cases h
      rw [List.set_cons_zero]
      have hred : walk cum t (r' :: rs) =
          (walk (effEnd cum r') t rs).map (fun p => (p.1 + 1, p.2)) := by
        show (if t < effEnd cum r' then some (0, cum)
              else (walk (effEnd cum r') t rs).map (fun p => (p.1 + 1, p.2))) = _
        rw [if_neg (by omega)]
      cases hw : walk (effEnd cum r') t rs with
      | none =>
        left
        rw [hred, hw]
        rfl
      | some p =>
        right
        refine ⟨p.1 + 1, p.2, ?_, Nat.succ_pos _⟩
        rw [hred, hw]
        rfl
    · rename_i hge
      obtain ⟨⟨j, c'⟩, hw, hfc⟩ := Option.map_eq_some'.mp h
      have hi : i = j + 1 ∧ c = c' := by
        have := hfc
        dsimp only at this
        exact ⟨(Prod.mk.injEq _ _ _ _).mp this.symm |>.1,
               (Prod.mk.injEq _ _ _ _).mp this.symm |>.2⟩
      obtain ⟨hi1, hi2⟩ := hi
      subst hi1
      rw [hi2] at hle
      rw [List.set_cons_succ]
      have hred : ∀ l : List PhaseRecord, walk cum t (r :: l) =
          (walk (effEnd cum r) t l).map (fun p => (p.1 + 1, p.2)) := by
        intro l
        show (if t < effEnd cum r then some (0, cum)
              else (walk (effEnd cum r) t l).map (fun p => (p.1 + 1, p.2))) = _
        rw [if_neg hge]
      rcases ih (effEnd cum r) t j c' r' hw hle with hnone | ⟨i', c'', hsome, hlt⟩
      · left
        rw [hred, hnone]
        rfl
      · right
        refine ⟨i' + 1, c'', ?_, Nat.succ_lt_succ hlt⟩
        rw [hred, hsome]
        rfl

theorem applyTransitions_of_some {s : InterviewSession} {now : Int} {i : Nat} {c : Int}
    (hnc : s.sessionState ≠ SessionState.completed)
    (hw : walk 0 (elapsedSeconds s now) s.phaseRecords = some (i, c)) :
    applyTransitions s now =
      { s with phaseRecords := advanceRecords 0 (elapsedSeconds s now) s.phaseRecords,
               currentIndex := i } := by
  unfold applyTransitions
  rw [if_neg hnc, hw]

theorem applyTransitions_of_none {s : InterviewSession} {now : Int}
    (hnc : s.sessionState ≠ SessionState.completed)
    (hw : walk 0 (elapsedSeconds s now) s.phaseRecords = none) :
    applyTransitions s now =
      { s with phaseRecords := advanceRecords 0 (elapsedSeconds s now) s.phaseRecords,
               currentIndex := s.phaseRecords.length - 1,
               sessionState := SessionState.completed } := by
  unfold applyTransitions
  rw [if_neg hnc, hw]

theorem applyTransitions_walk_of_ne {s : InterviewSession} {now : Int}
    (h1 : (applyTransitions s now).sessionState ≠ SessionState.completed) :
    s.sessionState ≠ SessionState.completed ∧
    ∃ i c, walk 0 (elapsedSeconds s now) s.phaseRecords = some (i, c) ∧
      (applyTransitions s now).currentIndex = i ∧
      (applyTransitions s now).phaseRecords =
        advanceRecords 0 (elapsedSeconds s now) s.phaseRecords ∧
      (applyTransitions s now).sessionState = s.sessionState := by
  by_cases hc : s.sessionState = SessionState.completed
  · exfalso
    apply h1
    unfold applyTransitions
    rw [if_pos hc]
    exact hc
  · refine ⟨hc, ?_⟩
    cases hw : walk 0 (elapsedSeconds s now) s.phaseRecords with
    | none =>
      exfalso
      apply h1
      rw [applyTransitions_of_none hc hw]
    | some p =>
      refine ⟨p.1, p.2, rfl, ?_, ?_, ?_⟩ <;>
        rw [applyTransitions_of_some hc (show _ = some (p.1, p.2) from hw)]

/-- A skipped phase stays skipped across a successful skip of another phase. -/
theorem skipApply_preserves_skipped (s1 : InterviewSession) (now : Int) (j : Nat)
    (h : (s1.phaseRecords.getD j default).status = PhaseStatus.skipped) :
    ((skipApply s1 now).phaseRecords.getD j default).status = PhaseStatus.skipped := by
  unfold skipApply
  apply applyTransitions_preserves_skipped
  show ((s1.phaseRecords.set s1.currentIndex _).getD j default).status = PhaseStatus.skipped
  exact set_preserves_skipped s1.phaseRecords s1.currentIndex j _ rfl h

/-- A skipped phase stays skipped across any single controller round trip. -/
theorem applyOp_preserves_skipped (s : InterviewSession) (op : Op) (j : Nat)
    (h : (s.phaseRecords.getD j default).status = PhaseStatus.skipped) :
    (((applyOp s op).phaseRecords.getD j default).status = PhaseStatus.skipped) := by
  cases op with
  | pause t =>
    show ((match pauseOp s t with
           | Except.ok s' => s'
           | Except.error _ => s).phaseRecords.getD j default).status = PhaseStatus.skipped
    cases hp : pauseOp s t with
    | error e => exact h
    | ok s' =>
      simp only [pauseOp] at hp
      split at hp
      · cases hp
        exact applyTransitions_preserves_skipped s t j h
      · cases hp
  | resume t =>
    show ((match resumeOp s t with
           | Except.ok s' => s'
           | Except.error _ => s).phaseRecords.getD j default).status = PhaseStatus.skipped
    cases hp : resumeOp s t with
    | error e => exact h
    | ok s' =>
      simp only [resumeOp] at hp
      split at hp
      · split at hp
        · cases hp
          exact applyTransitions_preserves_skipped s t j h
        · cases hp
      · cases hp
  | status t =>
    show (((applyTransitions s t, computeLiveState (applyTransitions s t) t).1).phaseRecords.getD
        j default).status = PhaseStatus.skipped
    exact applyTransitions_preserves_skipped s t j h
  | skip t =>
    show ((match skipOp s t with
           | Except.ok s' => s'
           | Except.error _ => s).phaseRecords.getD j default).status = PhaseStatus.skipped
    cases hp : skipOp s t with
    | error e => exact h
    | ok s' =>
      simp only [skipOp] at hp
      split at hp
      · cases hp
      · split at hp
        · cases hp
          show ((skipApply (applyTransitions s t) t).phaseRecords.getD j default).status =
            PhaseStatus.skipped
          exact skipApply_preserves_skipped _ _ _ (applyTransitions_preserves_skipped s t j h)
        · cases hp

/-- A skipped phase stays skipped across any sequence of controller round
trips. -/
theorem applyOps_preserves_skipped (ops : List Op) :
    ∀ (s : InterviewSession) (j : Nat),
    (s.phaseRecords.getD j default).status = PhaseStatus.skipped →
    (((applyOps s ops).phaseRecords.getD j default).status = PhaseStatus.skipped) := by
  induction ops with
  | nil =>
    intro s j h
    exact h
  | cons op ops ih =>
    intro s j h
    exact ih (applyOp s op) j (applyOp_preserves_skipped s op j h)

/-- Core of the skip transition: the marked phase is skipped in the result,
and the walk strictly advances past it (or the session completes). -/
theorem skipApply_spec (s1 : InterviewSession) (now : Int) (i : Nat) (c : Int)
    (hnc : s1.sessionState ≠ SessionState.completed)
    (hw1 : walk 0 (elapsedSeconds s1 now) s1.phaseRecords = some (i, c))
    (hidx : s1.currentIndex = i) :
    ((skipApply s1 now).phaseRecords.getD i default).status = PhaseStatus.skipped ∧
    (i < (skipApply s1 now).currentIndex ∨
     (skipApply s1 now).sessionState = SessionState.completed) := by
  have hlen : i < s1.phaseRecords.length := walk_index_lt_length _ _ _ _ _ hw1
  unfold skipApply
  rw [hidx]
  constructor
  · apply applyTransitions_preserves_skipped
    show ((s1.phaseRecords.set i _).getD i default).status = PhaseStatus.skipped
    rw [set_getD_self _ i _ hlen]
  · have hdisj := walk_set_skip s1.phaseRecords 0 (elapsedSeconds s1 now) i c
      { s1.phaseRecords.getD i default with
        status := PhaseStatus.skipped,
        completedAtOffsetSeconds := some (elapsedSeconds s1 now) }
      hw1 (le_of_eq rfl)
    rcases hdisj with hnone | ⟨i', c', hsome, hlt⟩
    · right
      rw [@applyTransitions_of_none
        { phaseRecords := s1.phaseRecords.set i
            { s1.phaseRecords.getD i default with
              status := PhaseStatus.skipped,
              completedAtOffsetSeconds := some (elapsedSeconds s1 now) },
          currentIndex := i,
          sessionState := s1.sessionState,
          startedAt := s1.startedAt,
          pausedAt := s1.pausedAt,
          accumulatedPausedSeconds := s1.accumulatedPausedSeconds }
        now hnc hnone]
    · left
      rw [@applyTransitions_of_some
        { phaseRecords := s1.phaseRecords.set i
            { s1.phaseRecords.getD i default with
              status := PhaseStatus.skipped,
              completedAtOffsetSeconds := some (elapsedSeconds s1 now) },
          currentIndex := i,
          sessionState := s1.sessionState,
          startedAt := s1.startedAt,
          pausedAt := s1.pausedAt,
          accumulatedPausedSeconds := s1.accumulatedPausedSeconds }
        now i' c' hnc hsome]
      exact hlt

/-- Claim C4: a successful skip on a non-completed session (whose current
phase, after lazy transitions, is skippable) marks the current phase skipped,
strictly increases `currentIndex` (or completes the session), and that
phase's status remains `skipped` in every state reachable afterwards by any
sequence of operations. -/
theorem claim4_skip_monotone_permanent (s s' : InterviewSession) (now : Int)
    (hnc : s.sessionState ≠ SessionState.completed)
    (hwf : ∀ i c, walk 0 (elapsedSeconds s now) s.phaseRecords = some (i, c) →
      s.currentIndex ≤ i)
    (hok : skipOp s now = Except.ok s') :
    s.currentIndex ≤ (applyTransitions s now).currentIndex ∧
    ((s'.phaseRecords.getD (applyTransitions s now).currentIndex default).status =
      PhaseStatus.skipped) ∧
    (s.currentIndex < s'.currentIndex ∨ s'.sessionState = SessionState.completed) ∧
    (∀ ops : List Op,
      (((applyOps s' ops).phaseRecords.getD (applyTransitions s now).currentIndex
          default).status = PhaseStatus.skipped)) := by
  simp only [skipOp] at hok
  split at hok
  · cases hok
  · rename_i hs1nc
    split at hok
    · cases hok
      obtain ⟨hsnc, i, c, hw, hidx, hrecs, hstate⟩ := applyTransitions_walk_of_ne hs1nc
      have hw1 : walk 0 (elapsedSeconds s now) (applyTransitions s now).phaseRecords =
          some (i, c) := by
        rw [hrecs, walk_advanceRecords]
        exact hw
      have hw1' : walk 0 (elapsedSeconds (applyTransitions s now) now)
          (applyTransitions s now).phaseRecords = some (i, c) := by
        rw [elapsedSeconds_applyTransitions]
        exact hw1
      have hspec := skipApply_spec (applyTransitions s now) now i c hs1nc hw1' hidx
      have hle : s.currentIndex ≤ i := hwf i c hw
      refine ⟨?_, ?_, ?_, ?_⟩
      · rw [hidx]
        exact hle
      · rw [hidx]
        exact hspec.1
      · rcases hspec.2 with hlt | hcomp
        · exact Or.inl (lt_of_le_of_lt hle hlt)
        · exact Or.inr hcomp
      · intro ops
        apply applyOps_preserves_skipped
        rw [hidx]
        exact hspec.1
    · cases hok

/-- Session used in the claim C4 witness: a skippable 1-minute phase followed
by a 1-minute phase. -/
def c4sBefore : InterviewSession :=
  ⟨[⟨⟨"A", 1, true, false⟩, PhaseStatus.active, none⟩,
    ⟨⟨"B", 1, false, false⟩, PhaseStatus.pending, none⟩],
   0, SessionState.running, 0, none, 0⟩

/-- Result of skipping the first phase of `c4sBefore` at wall-clock 0. -/
def c4sAfter : InterviewSession :=
  ⟨[⟨⟨"A", 1, true, false⟩, PhaseStatus.skipped, some 0⟩,
    ⟨⟨"B", 1, false, false⟩, PhaseStatus.pending, none⟩],
   1, SessionState.running, 0, none, 0⟩

/-- Concrete witness for claim C4. -/
theorem claim4_witness :
    ((c4sAfter.phaseRecords.getD (applyTransitions c4sBefore 0).currentIndex
        default).status = PhaseStatus.skipped) ∧
    (c4sBefore.currentIndex < c4sAfter.currentIndex ∨
      c4sAfter.sessionState = SessionState.completed) ∧
    (((applyOps c4sAfter [Op.pause 30, Op.status 45]).phaseRecords.getD
        (applyTransitions c4sBefore 0).currentIndex default).status =
      PhaseStatus.skipped) := by
  have h := claim4_skip_monotone_permanent c4sBefore c4sAfter 0 (by decide)
    (fun i c _ => Nat.zero_le i) rfl
  exact ⟨h.2.1, h.2.2.1, h.2.2.2 [Op.pause 30, Op.status 45]⟩

/-- With no skipped phases, the walk lands exactly on the phase whose
cumulative planned range contains the elapsed time. -/
theorem walk_noskip_some (recs : List PhaseRecord) :
    ∀ (cum t : Int) (i : Nat) (c : Int),
    (∀ x ∈ recs, x.status ≠ PhaseStatus.skipped) →
    cum ≤ t →
    walk cum t recs = some (i, c) →
    c = cum + ((recs.take i).map (fun r => r.phase.durationMinutes * 60)).sum ∧
    c ≤ t ∧
    t < c + (recs.getD i default).phase.durationMinutes * 60 := by
  induction recs with
  | nil =>
    intro cum t i c _ _ h
    cases h
  | cons r rs ih =>
    intro cum t i c hns hct h
    have he := effEnd_noskip (hns r (by simp)) cum
    unfold walk at h
    split at h
    · rename_i hlt
      cases h
      refine ⟨by simp, hct, ?_⟩
      rw [List.getD_cons_zero]
      omega
    · rename_i hge
      obtain ⟨⟨j, c'⟩, hw, hfc⟩ := Option.map_eq_some'.mp h
      have hi : i = j + 1 ∧ c = c' := by
        have hh := hfc
        dsimp only at hh
        exact ⟨((Prod.mk.injEq _ _ _ _).mp hh.symm).1,
               ((Prod.mk.injEq _ _ _ _).mp hh.symm).2⟩
      obtain ⟨hi1, hi2⟩ := hi
      subst hi1
      have hrec := ih (effEnd cum r) t j c'
        (fun x hx => hns x (by simp [hx])) (by omega) hw
      refine ⟨?_, ?_, ?_⟩
      · rw [hi2, hrec.1, he]
        rw [List.take_succ_cons, List.map_cons, List.sum_cons]
        ring
      · rw [hi2]
        exact hrec.2.1
      · rw [hi2, List.getD_cons_succ]
        exact hrec.2.2

/-- Input list of the two-phase scenario of claim C1. -/
def c1Inputs : List PhaseInput :=
  [⟨"Intro", 5, false, true⟩, ⟨"Tech", 10, true, true⟩]

/-- Session created by `start` in the claim C1 scenario. -/
def c1s0 : InterviewSession :=
  ⟨[⟨⟨"Intro", 5, false, true⟩, PhaseStatus.active, none⟩,
    ⟨⟨"Tech", 10, true, true⟩, PhaseStatus.pending, none⟩],
   0, SessionState.running, 0, none, 0⟩

/-- Stored session after the status call at 5m01s in the claim C1 scenario. -/
def c1s1 : InterviewSession :=
  ⟨[⟨⟨"Intro", 5, false, true⟩, PhaseStatus.completed, some 300⟩,
    ⟨⟨"Tech", 10, true, true⟩, PhaseStatus.pending, none⟩],
   1, SessionState.running, 0, none, 0⟩

/-- Live state reported at 5m01s in the claim C1 scenario. -/
def c1Live : LiveState :=
  { currentPhase := "Tech"
    elapsedMinutes := ((301 : Int) : ℚ) / 60
    totalMinutes := ((900 : Int) : ℚ) / 60
    progressPercentage :=
      clamp01 ((((301 : Int) : ℚ) - ((300 : Int) : ℚ)) / (((10 : Int) : ℚ) * 60))
    isCompleted := false
    isSkipped := false }

/-- Claim C1: the engine selects as current phase the phase found by walking
`phaseRecords` in order, accumulating planned durations, and taking the phase
whose cumulative range contains `elapsedSeconds`; in the two-phase scenario
`[Intro 5min, Tech 10min]` with no pauses, a status call at
`startedAt + 5m01s` reports `current_phase = "Tech"`,
`elapsed_minutes ≈ 5.02`, and `is_completed = false`. -/
theorem claim1_phase_selection :
    (∀ (s : InterviewSession) (now : Int),
       s.sessionState ≠ SessionState.completed →
       (∀ x ∈ s.phaseRecords, x.status ≠ PhaseStatus.skipped) →
       0 ≤ elapsedSeconds s now →
       ∀ i c, walk 0 (elapsedSeconds s now) s.phaseRecords = some (i, c) →
         c = cumBefore s.phaseRecords i ∧
         c ≤ elapsedSeconds s now ∧
         elapsedSeconds s now <
           c + (s.phaseRecords.getD i default).phase.durationMinutes * 60 ∧
         (computeLiveState s now).currentPhase =
           (s.phaseRecords.getD i default).phase.name) ∧
    (startOp c1Inputs 0 = Except.ok (c1s0, 15) ∧
     statusOp c1s0 301 = Except.ok (c1s1, c1Live) ∧
     c1Live.currentPhase = "Tech" ∧
     c1Live.isCompleted = false ∧
     (501 : ℚ) / 100 < c1Live.elapsedMinutes ∧
     c1Live.elapsedMinutes < (502 : ℚ) / 100) := by
  constructor
  · intro s now hst hns he0 i c hw
    have hmain := walk_noskip_some s.phaseRecords 0 (elapsedSeconds s now) i c hns he0 hw
    refine ⟨?_, hmain.2.1, hmain.2.2, ?_⟩
    · rw [hmain.1]
      unfold cumBefore
      omega
    · simp only [computeLiveState]
      rw [if_neg hst, hw]
  · refine ⟨rfl, rfl, rfl, rfl, ?_, ?_⟩
    · show (501 : ℚ) / 100 < ((301 : Int) : ℚ) / 60
      norm_num
    · show ((301 : Int) : ℚ) / 60 < (502 : ℚ) / 100
      norm_num

/-- Concrete witness for claim C1's universally quantified part. -/
theorem claim1_witness :
    (300 : Int) = cumBefore c1s0.phaseRecords 1 ∧
    (300 : Int) ≤ elapsedSeconds c1s0 301 ∧
    elapsedSeconds c1s0 301 <
      300 + (c1s0.phaseRecords.getD 1 default).phase.durationMinutes * 60 ∧
    (computeLiveState c1s0 301).currentPhase =
      (c1s0.phaseRecords.getD 1 default).phase.name :=
  claim1_phase_selection.1 c1s0 301 (by decide) (by decide) (by decide) 1 300 rfl

theorem clamp01_nonneg (q : ℚ) : 0 ≤ clamp01 q := le_max_left 0 _

theorem clamp01_le_one (q : ℚ) : clamp01 q ≤ 1 :=
  max_le (by norm_num) (min_le_left 1 q)

/-- Claim C9: the reported `progressPercentage` equals the elapsed share of
the current phase clamped to `[0, 1]`, and in particular always lies between
0 and 1. -/
theorem claim9_progress_clamped (s : InterviewSession) (now : Int) :
    0 ≤ (computeLiveState s now).progressPercentage ∧
    (computeLiveState s now).progressPercentage ≤ 1 ∧
    (s.sessionState ≠ SessionState.completed →
      ∀ i c, walk 0 (elapsedSeconds s now) s.phaseRecords = some (i, c) →
        (computeLiveState s now).progressPercentage =
          clamp01 (((elapsedSeconds s now : ℚ) - (c : ℚ)) /
            (((s.phaseRecords.getD i default).phase.durationMinutes : ℚ) * 60))) := by
  have hshape : (computeLiveState s now).progressPercentage = 1 ∨
      ∃ q, (computeLiveState s now).progressPercentage = clamp01 q := by
    simp only [computeLiveState]
    split
    · left
      rfl
    · split
      · right
        exact ⟨_, rfl⟩
      · left
        rfl
  refine ⟨?_, ?_, ?_⟩
  · rcases hshape with h | ⟨q, h⟩
    · rw [h]
      norm_num
    · rw [h]
      exact clamp01_nonneg q
  · rcases hshape with h | ⟨q, h⟩
    · rw [h]
    · rw [h]
      exact clamp01_le_one q
  · intro hst i c hw
    simp only [computeLiveState]
    rw [if_neg hst, hw]

/-- Concrete witness for claim C9. -/
theorem claim9_witness :
    0 ≤ (computeLiveState c1s0 301).progressPercentage ∧
    (computeLiveState c1s0 301).progressPercentage ≤ 1 ∧
    (computeLiveState c1s0 301).progressPercentage =
      clamp01 (((elapsedSeconds c1s0 301 : ℚ) - ((300 : Int) : ℚ)) /
        (((c1s0.phaseRecords.getD 1 default).phase.durationMinutes : ℚ) * 60)) := by
  have h := claim9_progress_clamped c1s0 301
  exact ⟨h.1, h.2.1, h.2.2 (by decide) 1 300 rfl⟩

/-! Embedding of `frontend/src/components/TimelineProgress.jsx`: the timeline
bar computes, for each phase, a width `(phase.duration / totalDuration) * 100`
and a left offset obtained by summing the same expression over the preceding
phases. -/

/-- A phase as consumed by `TimelineProgress` (name, duration, color). -/
structure TPhase where
  name : String
  duration : ℚ
  color : String
deriving DecidableEq

/-- Total duration, `phases.reduce((sum, phase) => sum + phase.duration, 0)`. -/
def tpTotalDuration (phases : List TPhase) : ℚ :=
  phases.foldl (fun sum phase => sum + phase.duration) 0

/-- Width of one segment, `(phase.duration / totalDuration) * 100`. -/
def tpWidth (phases : List TPhase) (phase : TPhase) : ℚ :=
  phase.duration / tpTotalDuration phases * 100

/-- Left offset of segment `index`,
`phases.slice(0, index).reduce((sum, p) => sum + (p.duration / totalDuration) * 100, 0)`. -/
def tpLeft (phases : List TPhase) (index : Nat) : ℚ :=
  (phases.take index).foldl
    (fun sum p => sum + p.duration / tpTotalDuration phases * 100) 0

theorem foldl_add_eq_sum (f : TPhase → ℚ) (l : List TPhase) :
    ∀ a : ℚ, l.foldl (fun s p => s + f p) a = a + (l.map f).sum := by
  induction l with
  | nil =>
    intro a
    simp
  | cons p ps ih =>
    intro a
    rw [List.foldl_cons, ih, List.map_cons, List.sum_cons]
    ring

theorem sum_map_div_mul (T : ℚ) (l : List TPhase) :
    (l.map (fun p => p.duration / T * 100)).sum =
      (l.map (fun p => p.duration)).sum / T * 100 := by
  induction l with
  | nil =>
    simp
  | cons p ps ih =>
    rw [List.map_cons, List.sum_cons, ih, List.map_cons, List.sum_cons, add_div, add_mul]

/-- Claim C10: for a non-empty phase list with positive durations, the
timeline segments tile the bar exactly — each segment's left offset is the
sum of the widths of the preceding segments, and the widths sum to 100
percent. -/
theorem claim10_timeline_tiles (phases : List TPhase)
    (h1 : phases ≠ []) (h2 : ∀ p ∈ phases, 0 < p.duration) :
    (∀ i : Nat, tpLeft phases i = ((phases.take i).map (tpWidth phases)).sum) ∧
    (phases.map (tpWidth phases)).sum = 100 := by
  have htot : tpTotalDuration phases = (phases.map (fun p => p.duration)).sum := by
    unfold tpTotalDuration
    rw [foldl_add_eq_sum (fun p => p.duration) phases 0, zero_add]
  have hpos : 0 < (phases.map (fun p => p.duration)).sum := by
    apply List.sum_pos
    · intro q hq
      obtain ⟨p, hp, he⟩ := List.mem_map.mp hq
      rw [← he]
      exact h2 p hp
    · intro hmap
      exact h1 (by simpa using hmap)
  constructor
  · intro i
    unfold tpLeft
    rw [foldl_add_eq_sum (fun p => p.duration / tpTotalDuration phases * 100)
      (phases.take i) 0, zero_add]
    rfl
  · show (phases.map (fun p => p.duration / tpTotalDuration phases * 100)).sum = (100 : ℚ)
    rw [sum_map_div_mul (tpTotalDuration phases) phases, ← htot,
      div_self (ne_of_gt (htot ▸ hpos)), one_mul]

/-- Concrete witness for claim C10. -/
theorem claim10_witness :
    tpLeft [⟨"A", 1, "red"⟩, ⟨"B", 3, "blue"⟩] 1 =
      ((([⟨"A", 1, "red"⟩, ⟨"B", 3, "blue"⟩] : List TPhase).take 1).map
        (tpWidth [⟨"A", 1, "red"⟩, ⟨"B", 3, "blue"⟩])).sum ∧
    (([⟨"A", 1, "red"⟩, ⟨"B", 3, "blue"⟩] : List TPhase).map
      (tpWidth [⟨"A", 1, "red"⟩, ⟨"B", 3, "blue"⟩])).sum = 100 := by
  have h := claim10_timeline_tiles [⟨"A", 1, "red"⟩, ⟨"B", 3, "blue"⟩]
    (by simp)
    (by
      intro p hp
      simp only [List.mem_cons, List.not_mem_nil, or_false] at hp
      rcases hp with h | h <;> subst h <;> norm_num)
  exact ⟨h.1 1, h.2⟩

end Scheduler
